import Mathlib

/-!
Verification of the calorie-journal aggregation and persistence logic.

The definitions below are a shallow embedding of the TypeScript source:
  - `app/(tabs)/index.tsx`: the day filter (`loadToday`), the `totals`
    reduction, the `byMeal` grouping, and the clamped progress bars
    (`Stat` / `Progress`);
  - `app/(tabs)/add.tsx`: `saveEntries` and the `onSubmit` row loop;
  - `app/(tabs)/history.tsx`: `deleteEntry`.

JavaScript numbers that reach the aggregation are modelled as rationals
(finite JS arithmetic on these inputs is exact addition, idealised as ℚ).
A numeric field of a stored record that may be missing or non-numeric is
modelled as `Option ℚ`: `none` stands for an absent field or one on which
`Number(x)` yields `NaN`; the source coerces both to `0` via
`Number(x) || 0`. Timestamps are epoch milliseconds (`ℕ`); a calendar day
`d` spans the instants `d * 86400000` (dayjs `startOf('day')`) to
`d * 86400000 + 86399999` (dayjs `endOf('day')`, the last millisecond of
the day). The division special cases of the progress bars (Infinity/NaN)
are modelled explicitly by `JsNum`.
-/

namespace CalorieJournal

/-- The `Totals` record type of `index.tsx`:
`{ calories; protein; carbs; fat; fiber }`. -/
@[ext]
structure Totals where
  calories : ℚ
  protein : ℚ
  carbs : ℚ
  fat : ℚ
  fiber : ℚ
deriving DecidableEq, Repr

/-- A stored journal `Entry` record (shape produced by `add.tsx` and read by
`index.tsx` / `history.tsx`). Numeric fields are `Option ℚ`: `none` models a
missing or non-numeric JSON value. `meal` is an arbitrary optional string in
the stored JSON (typed as the four-meal union in `index.tsx`, but `add.tsx`
stores any row name there). -/
structure Entry where
  id : String
  date : ℕ
  name : String
  calories : Option ℚ
  protein : Option ℚ
  carbs : Option ℚ
  fat : Option ℚ
  fiber : Option ℚ
  sugar : Option ℚ
  meal : Option String
deriving DecidableEq, Repr

/-- The meal keys, `MEALS` in `index.tsx`. -/
def MEALS : List String := ["Breakfast", "Lunch", "Snack", "Dinner"]

/-- `Number(x) || 0` applied to a possibly missing / non-numeric field:
a present numeric value passes through, everything else becomes `0`
(`Number(undefined)` and `Number(<non-numeric>)` are `NaN`, and
`NaN || 0`, `0 || 0` are `0`). -/
def numOr0 : Option ℚ → ℚ
  | none => 0
  | some q => q

/-- The all-zero `Totals`, the initial accumulator of the `reduce` in
`index.tsx`. -/
def zeroT : Totals := ⟨0, 0, 0, 0, 0⟩

/-- The five coerced numeric contributions of one entry, as one `Totals`. -/
def entryT (e : Entry) : Totals :=
  ⟨numOr0 e.calories, numOr0 e.protein, numOr0 e.carbs, numOr0 e.fat, numOr0 e.fiber⟩

/-- Pointwise sum of two `Totals`. -/
def addT (a b : Totals) : Totals :=
  ⟨a.calories + b.calories, a.protein + b.protein, a.carbs + b.carbs,
   a.fat + b.fat, a.fiber + b.fiber⟩

/-- One step of the `entries.reduce` in the `totals` memo of `index.tsx`:
`acc.calories + (Number(e.calories) || 0)`, and so on for each field. -/
def addE (acc : Totals) (e : Entry) : Totals :=
  ⟨acc.calories + numOr0 e.calories, acc.protein + numOr0 e.protein,
   acc.carbs + numOr0 e.carbs, acc.fat + numOr0 e.fat,
   acc.fiber + numOr0 e.fiber⟩

/-- The `totals` memo of `index.tsx`: a left fold of `addE` starting from the
all-zero accumulator. -/
def totalsOf (entries : List Entry) : Totals := entries.foldl addE zeroT

/-- The grouping key of the `byMeal` memo:
`e.meal && MEALS.includes(e.meal) ? e.meal : 'Snack'`. An absent `meal`
(and the falsy empty string, which is not in `MEALS` either) or any string
outside `MEALS` maps to `"Snack"`. -/
def mealKey (e : Entry) : String :=
  match e.meal with
  | some m => if m ∈ MEALS then m else "Snack"
  | none => "Snack"

/-- The initial `grouped` record of the `byMeal` memo: each of the four meal
keys bound to all-zero totals (`MEALS.forEach((m) => grouped[m] = {0,...})`).
Modelled as an association list to keep the key set observable. -/
def initGroups : List (String × Totals) := MEALS.map (fun m => (m, zeroT))

/-- One step of the `entries.forEach` in the `byMeal` memo: add the entry's
coerced fields to the group whose key is `mealKey e`, leave other groups
unchanged. -/
def updG (g : List (String × Totals)) (e : Entry) : List (String × Totals) :=
  g.map (fun p => if p.1 = mealKey e then (p.1, addE p.2 e) else p)

/-- The `byMeal` memo of `index.tsx`: fold the group-update over the entries,
starting from the four zero groups. -/
def byMealOf (entries : List Entry) : List (String × Totals) :=
  entries.foldl updG initGroups

/-- Read a group out of the association list (`grouped[m]`); absent keys give
zero totals (never happens for the four meal keys, as proved below). -/
def getG (g : List (String × Totals)) (m : String) : Totals :=
  match g.find? (fun p => p.1 = m) with
  | some p => p.2
  | none => zeroT

/-- Milliseconds per day. -/
def msPerDay : ℕ := 86400000

/-- dayjs `startOf('day')` of day index `d`, as epoch milliseconds. -/
def startOfDay (d : ℕ) : ℕ := d * msPerDay

/-- dayjs `endOf('day')` of day index `d`: the last millisecond of the day,
`23:59:59.999`. -/
def endOfDay (d : ℕ) : ℕ := d * msPerDay + (msPerDay - 1)

/-- The filter predicate of `loadToday` in `index.tsx`:
`dayjs(e.date).isAfter(start) && dayjs(e.date).isBefore(end)` — both
comparisons strict. -/
def inDay (d : ℕ) (e : Entry) : Bool :=
  decide (startOfDay d < e.date) && decide (e.date < endOfDay d)

/-- Result of summarising one day: the `totals` memo and the `byMeal` memo of
`index.tsx`, both computed over the day-filtered entries of `loadToday`. -/
@[ext]
structure DaySummary where
  totals : Totals
  byMeal : List (String × Totals)
deriving DecidableEq, Repr

/-- `summarizeDay`: the composite day summary of `index.tsx` — filter the
stored list by the day bounds (`loadToday`), then reduce into overall totals
and the by-meal groups. -/
def summarizeDay (entries : List Entry) (d : ℕ) : DaySummary :=
  let filtered := entries.filter (inDay d)
  ⟨totalsOf filtered, byMealOf filtered⟩

/-- Per-group totals, used to state what `byMealOf` computes: the totals of
the filtered entries whose grouping key is `m`. -/
def groupT (m : String) (l : List Entry) : Totals :=
  totalsOf (l.filter (fun e => decide (mealKey e = m)))

/-- A JavaScript number as it appears in the progress computation: a finite
value (idealised as an exact rational), one of the two infinities, or `NaN`. -/
inductive JsNum where
  | num (q : ℚ)
  | posInf
  | negInf
  | nan
deriving DecidableEq, Repr

/-- JS division `value / goal` of two finite numbers: division by zero gives
`Infinity` / `-Infinity` / `NaN` according to the sign of the numerator. -/
def jsDivQ (v g : ℚ) : JsNum :=
  if g = 0 then (if 0 < v then JsNum.posInf else if v < 0 then JsNum.negInf else JsNum.nan)
  else JsNum.num (v / g)

/-- JS multiplication of the ratio by `100` (`(value / goal) * 100`). -/
def jsMul100 : JsNum → JsNum
  | JsNum.num q => JsNum.num (q * 100)
  | JsNum.posInf => JsNum.posInf
  | JsNum.negInf => JsNum.negInf
  | JsNum.nan => JsNum.nan

/-- JS `Math.max(0, x)`: `NaN` propagates; `-Infinity` is raised to `0`. -/
def jsMax0 : JsNum → JsNum
  | JsNum.num q => JsNum.num (max 0 q)
  | JsNum.posInf => JsNum.posInf
  | JsNum.negInf => JsNum.num 0
  | JsNum.nan => JsNum.nan

/-- JS `Math.min(100, x)`: `NaN` propagates; `Infinity` is capped at `100`. -/
def jsMin100 : JsNum → JsNum
  | JsNum.num q => JsNum.num (min 100 q)
  | JsNum.posInf => JsNum.num 100
  | JsNum.negInf => JsNum.negInf
  | JsNum.nan => JsNum.nan

/-- The clamped percentage of the `Progress` component in `index.tsx`
(`Math.min(100, Math.max(0, (value / goal) * 100))`; the `Stat` component
computes the same clamp on `progress * 100` with `progress = value / goal`
supplied by its caller). -/
def progressPct (value goal : ℚ) : JsNum :=
  jsMin100 (jsMax0 (jsMul100 (jsDivQ value goal)))

/-- The spec's `progressRatio` operation, written from the spec's words for
comparison with the source's `progressPct`: `value / goal` clamped to
`[0, 1]`, and `0` whenever `goal ≤ 0`. -/
def progressRatioSpec (value goal : ℚ) : ℚ :=
  if goal ≤ 0 then 0 else min 1 (max 0 (value / goal))

/-- `saveEntries` of `add.tsx`: an empty batch is a no-op; otherwise the new
entries are prepended to the previously persisted list
(`[...newEntries, ...existing]`). The function returns the list that is
persisted back under the storage key. -/
def saveEntries (newEntries existing : List Entry) : List Entry :=
  if newEntries.isEmpty then existing else newEntries ++ existing

/-- `deleteEntry` of `history.tsx`: persist `entries.filter(e => e.id !== id)`. -/
def deleteEntry (entries : List Entry) (id : String) : List Entry :=
  entries.filter (fun e => e.id != id)

/-- One meal row of the add-entry form after zod validation
(`mealSchema`): a name plus six optional non-negative numbers. -/
structure MealRow where
  name : String
  calories : Option ℚ
  protein : Option ℚ
  carbs : Option ℚ
  fat : Option ℚ
  fiber : Option ℚ
  sugar : Option ℚ
deriving DecidableEq, Repr

/-- The row-qualification test of `onSubmit` in `add.tsx`:
`[calories, protein, carbs, fat, fiber, sugar].some(v => v > 0)` over the
coerced values `Number(meal.x || 0)`. -/
def hasAnyValue (m : MealRow) : Bool :=
  [numOr0 m.calories, numOr0 m.protein, numOr0 m.carbs,
   numOr0 m.fat, numOr0 m.fiber, numOr0 m.sugar].any (fun v => decide (0 < v))

/-- The entry pushed by `onSubmit` for one qualifying row: fresh id, the
form's date, the row name as both `name` and `meal`, and the six coerced
numeric values. -/
def mkEntry (uid : String) (date : ℕ) (m : MealRow) : Entry :=
  { id := uid, date := date, name := m.name,
    calories := some (numOr0 m.calories), protein := some (numOr0 m.protein),
    carbs := some (numOr0 m.carbs), fat := some (numOr0 m.fat),
    fiber := some (numOr0 m.fiber), sugar := some (numOr0 m.sugar),
    meal := some m.name }

/-- The row loop of `onSubmit`: walk the form's meal rows in order, skip
(`continue`) a row none of whose six coerced fields is strictly positive, and
push an entry for each qualifying row. `uuid k` models the `k`-th fresh
`Crypto.randomUUID()` drawn by the loop. -/
def entriesToSave (uuid : ℕ → String) (date : ℕ) : List MealRow → ℕ → List Entry
  | [], _ => []
  | m :: rest, k =>
    if hasAnyValue m then mkEntry (uuid k) date m :: entriesToSave uuid date rest (k + 1)
    else entriesToSave uuid date rest k

/-- `onSubmit` of `add.tsx`, restricted to its persistence effect: build the
qualifying entries and hand them to `saveEntries` over the previously
persisted list. -/
def onSubmit (uuid : ℕ → String) (date : ℕ) (meals : List MealRow) (existing : List Entry) : List Entry :=
  saveEntries (entriesToSave uuid date meals 0) existing

/-- The observable data of a created entry, ignoring the random id. -/
def entryData (e : Entry) : String × Option ℚ × Option ℚ × Option ℚ × Option ℚ × Option ℚ × Option ℚ :=
  (e.name, e.calories, e.protein, e.carbs, e.fat, e.fiber, e.sugar)

/-- The data a qualifying meal row contributes to its created entry. -/
def rowData (m : MealRow) : String × Option ℚ × Option ℚ × Option ℚ × Option ℚ × Option ℚ × Option ℚ :=
  (m.name, some (numOr0 m.calories), some (numOr0 m.protein), some (numOr0 m.carbs),
   some (numOr0 m.fat), some (numOr0 m.fiber), some (numOr0 m.sugar))

/-- Replace every missing / non-numeric numeric field of an entry by a present
`0` — the value the aggregation's `Number(x) || 0` coercion gives it. -/
def sanitizeE (e : Entry) : Entry :=
  { e with
    calories := some (numOr0 e.calories),
    protein := some (numOr0 e.protein),
    carbs := some (numOr0 e.carbs),
    fat := some (numOr0 e.fat),
    fiber := some (numOr0 e.fiber) }

/-- Sample entry: a breakfast on day 0 (noon), with two missing numeric
fields. -/
def entryA : Entry :=
  ⟨"a1", 43200000, "Oats", some 500, none, some 50, some 10, none, none, some "Breakfast"⟩

/-- Sample entry: a lunch on day 0 (13:00). -/
def entryB : Entry :=
  ⟨"b2", 46800000, "Rice", some 300, some 9, some 60, some 4, some 2, some 1, some "Lunch"⟩

/-- Sample entry: timestamped exactly at the start-of-day instant of day 1. -/
def entryAtStart : Entry :=
  ⟨"s0", 86400000, "Midnight snack", some 100, some 1, some 1, some 1, some 1, some 1, none⟩

/-- Sample entry: on day 5, so on a different day than day 0. -/
def entryOtherDay : Entry :=
  ⟨"o5", 432000100, "Soup", some 250, some 8, some 20, some 9, some 3, some 2, some "Dinner"⟩

/-- Sample entry with no `meal` field at all. -/
def entryNoMeal : Entry :=
  ⟨"n0", 50000000, "Tea", some 5, none, none, none, none, none, none⟩

/-- Sample entry whose `meal` string is not one of the four meal names. -/
def entryBadMeal : Entry :=
  ⟨"x9", 50400000, "Meal 4", some 120, none, none, none, none, none, some "Meal 4"⟩

/-- Sample meal row with no numeric field filled in. -/
def rowEmpty : MealRow := ⟨"Breakfast", none, none, none, none, none, none⟩

/-- Sample meal row whose only present fields coerce to `0`. -/
def rowZero : MealRow := ⟨"Lunch", some 0, some 0, none, none, none, none⟩

/-- A concrete id supply for the witnesses. -/
def uuidOf (k : ℕ) : String := Nat.repr k

/-! ### Algebra of `Totals` and the two folds -/

theorem addT_zero (a : Totals) : addT a zeroT = a := by
  ext <;> simp [addT, zeroT]

theorem zero_addT (a : Totals) : addT zeroT a = a := by
  ext <;> simp [addT, zeroT]

theorem addT_comm (a b : Totals) : addT a b = addT b a := by
  ext <;> simp [addT] <;> ring

theorem addT_assoc (a b c : Totals) : addT (addT a b) c = addT a (addT b c) := by
  ext <;> simp [addT] <;> ring

theorem addE_eq (acc : Totals) (e : Entry) : addE acc e = addT acc (entryT e) := rfl

theorem totalsOf_nil : totalsOf [] = zeroT := rfl

theorem foldl_addE (l : List Entry) : ∀ acc, l.foldl addE acc = addT acc (totalsOf l) := by
  induction l with
  | nil => intro acc; simp [totalsOf_nil, addT_zero]
  | cons e l ih =>
    intro acc
    have h2 : totalsOf (e :: l) = addT (addE zeroT e) (totalsOf l) := by
      show (e :: l).foldl addE zeroT = _
      rw [List.foldl_cons, ih]
    rw [List.foldl_cons, ih, h2, addE_eq, addE_eq, zero_addT, addT_assoc]

theorem totalsOf_cons (e : Entry) (l : List Entry) :
    totalsOf (e :: l) = addT (entryT e) (totalsOf l) := by
  show (e :: l).foldl addE zeroT = _
  rw [List.foldl_cons, foldl_addE, addE_eq, zero_addT]

theorem totalsOf_perm {l₁ l₂ : List Entry} (h : l₁.Perm l₂) : totalsOf l₁ = totalsOf l₂ := by
  induction h with
  | nil => rfl
  | cons x _ ih => rw [totalsOf_cons, totalsOf_cons, ih]
  | swap x y l =>
    rw [totalsOf_cons, totalsOf_cons, totalsOf_cons, totalsOf_cons,
      ← addT_assoc, ← addT_assoc, addT_comm (entryT y) (entryT x)]
  | trans _ _ ih₁ ih₂ => rw [ih₁, ih₂]

/-! ### The grouping key and per-group totals -/

theorem mealKey_mem (e : Entry) :
    mealKey e = "Breakfast" ∨ mealKey e = "Lunch" ∨ mealKey e = "Snack" ∨
      mealKey e = "Dinner" := by
  cases hm : e.meal with
  | none => simp [mealKey, hm]
  | some m =>
    by_cases h : m ∈ MEALS
    · have hk : mealKey e = m := by simp [mealKey, hm, h]
      rw [hk]
      simp only [MEALS, List.mem_cons, List.mem_singleton, List.not_mem_nil, or_false] at h
      rcases h with rfl | rfl | rfl | rfl <;> tauto
    · have hk : mealKey e = "Snack" := by simp [mealKey, hm, h]
      rw [hk]; tauto

theorem groupT_nil (m : String) : groupT m [] = zeroT := rfl

theorem groupT_cons (m : String) (e : Entry) (l : List Entry) :
    groupT m (e :: l) =
      if mealKey e = m then addT (entryT e) (groupT m l) else groupT m l := by
  unfold groupT
  by_cases h : mealKey e = m
  · rw [List.filter_cons_of_pos (by simp [h]), totalsOf_cons, if_pos h]
  · rw [List.filter_cons_of_neg (by simp [h]), if_neg h]

theorem addT_addE (a x : Totals) (e : Entry) :
    addT (addE a e) x = addT a (addT (entryT e) x) := by
  ext <;> simp [addT, addE, entryT] <;> ring

theorem updG_quad (a b c d : Totals) (e : Entry) :
    updG [("Breakfast", a), ("Lunch", b), ("Snack", c), ("Dinner", d)] e =
      [(("Breakfast" : String), if "Breakfast" = mealKey e then addE a e else a),
       ("Lunch", if "Lunch" = mealKey e then addE b e else b),
       ("Snack", if "Snack" = mealKey e then addE c e else c),
       ("Dinner", if "Dinner" = mealKey e then addE d e else d)] := by
  simp only [updG, List.map_cons, List.map_nil]
  by_cases h1 : ("Breakfast" : String) = mealKey e <;>
    by_cases h2 : ("Lunch" : String) = mealKey e <;>
      by_cases h3 : ("Snack" : String) = mealKey e <;>
        by_cases h4 : ("Dinner" : String) = mealKey e <;>
          simp [h1, h2, h3, h4]

theorem foldl_updG_quad (l : List Entry) : ∀ a b c d : Totals,
    l.foldl updG [("Breakfast", a), ("Lunch", b), ("Snack", c), ("Dinner", d)] =
      [("Breakfast", addT a (groupT "Breakfast" l)),
       ("Lunch", addT b (groupT "Lunch" l)),
       ("Snack", addT c (groupT "Snack" l)),
       ("Dinner", addT d (groupT "Dinner" l))] := by
  induction l with
  | nil => intro a b c d; simp [groupT_nil, addT_zero]
  | cons e l ih =>
    intro a b c d
    rw [List.foldl_cons, updG_quad]
    rcases mealKey_mem e with h | h | h | h <;>
      · rw [h]
        simp only [if_pos, if_neg, reduceIte]
        rw [ih]
        simp only [groupT_cons, h, reduceIte, List.cons.injEq, Prod.mk.injEq, true_and,
          and_true, addT_addE]
        tauto

theorem byMealOf_eval (l : List Entry) :
    byMealOf l =
      [("Breakfast", groupT "Breakfast" l), ("Lunch", groupT "Lunch" l),
       ("Snack", groupT "Snack" l), ("Dinner", groupT "Dinner" l)] := by
  have h0 : initGroups =
      [("Breakfast", zeroT), ("Lunch", zeroT), ("Snack", zeroT), ("Dinner", zeroT)] := rfl
  unfold byMealOf
  rw [h0, foldl_updG_quad]
  simp [zero_addT]

theorem getG_byMeal_breakfast (l : List Entry) :
    getG (byMealOf l) "Breakfast" = groupT "Breakfast" l := by
  rw [byMealOf_eval]; rfl

theorem getG_byMeal_lunch (l : List Entry) :
    getG (byMealOf l) "Lunch" = groupT "Lunch" l := by
  rw [byMealOf_eval]; rfl

theorem getG_byMeal_snack (l : List Entry) :
    getG (byMealOf l) "Snack" = groupT "Snack" l := by
  rw [byMealOf_eval]; rfl

theorem getG_byMeal_dinner (l : List Entry) :
    getG (byMealOf l) "Dinner" = groupT "Dinner" l := by
  rw [byMealOf_eval]; rfl

theorem totals_partition (l : List Entry) :
    totalsOf l =
      addT (addT (addT (groupT "Breakfast" l) (groupT "Lunch" l)) (groupT "Snack" l))
        (groupT "Dinner" l) := by
  induction l with
  | nil =>
    rw [totalsOf_nil, groupT_nil, groupT_nil, groupT_nil, groupT_nil, addT_zero, addT_zero,
      addT_zero]
  | cons e l ih =>
    rw [totalsOf_cons, ih]
    rcases mealKey_mem e with h | h | h | h <;>
      · simp only [groupT_cons, h, reduceIte]
        ext <;> simp [addT, entryT] <;> ring

theorem byMeal_keys (l : List Entry) : (byMealOf l).map Prod.fst = MEALS := by
  rw [byMealOf_eval]; rfl

theorem groupT_perm (m : String) {l₁ l₂ : List Entry} (h : l₁.Perm l₂) :
    groupT m l₁ = groupT m l₂ :=
  totalsOf_perm (h.filter _)

theorem byMealOf_perm {l₁ l₂ : List Entry} (h : l₁.Perm l₂) : byMealOf l₁ = byMealOf l₂ := by
  rw [byMealOf_eval, byMealOf_eval, groupT_perm "Breakfast" h, groupT_perm "Lunch" h,
    groupT_perm "Snack" h, groupT_perm "Dinner" h]

/-! ### The day filter -/

theorem inDay_iff (d : ℕ) (e : Entry) :
    inDay d e = true ↔ startOfDay d < e.date ∧ e.date < endOfDay d := by
  simp [inDay]

theorem inDay_of_other_day {d : ℕ} {e : Entry} (h : e.date / msPerDay ≠ d) :
    inDay d e = false := by
  rcases Bool.eq_false_or_eq_true (inDay d e) with ht | hf
  · exfalso
    rcases (inDay_iff d e).mp ht with ⟨h1, h2⟩
    apply h
    simp only [startOfDay, endOfDay, msPerDay] at h1 h2
    simp only [msPerDay]
    omega
  · exact hf

/-! ### Claim theorems -/

/-- C1: for every entry sequence `E` and reference day `d`, the overall
`totals` of `summarizeDay E d` equal the pointwise sum, over the four meal
keys Breakfast, Lunch, Snack and Dinner, of the `byMeal` group totals of the
same summary, in every field — grouping never drops or double-counts an
entry. -/
theorem c1_totals_eq_byMeal_sum (E : List Entry) (d : ℕ) :
    (summarizeDay E d).totals =
      addT (addT (addT (getG (summarizeDay E d).byMeal "Breakfast")
            (getG (summarizeDay E d).byMeal "Lunch"))
          (getG (summarizeDay E d).byMeal "Snack"))
        (getG (summarizeDay E d).byMeal "Dinner") := by
  simp only [summarizeDay]
  rw [getG_byMeal_breakfast, getG_byMeal_lunch, getG_byMeal_snack, getG_byMeal_dinner]
  exact totals_partition _

/-- C2: an entry enters the day's summary exactly when its date lies strictly
between the start-of-day and end-of-day instants of the reference day; an
entry timestamped exactly at either boundary instant is excluded; and an
entry dated on a different calendar day never contributes to any output
total. -/
theorem c2_day_filter (l : List Entry) (d : ℕ) (e : Entry) :
    (e ∈ l.filter (inDay d) ↔ e ∈ l ∧ startOfDay d < e.date ∧ e.date < endOfDay d)
    ∧ (e.date = startOfDay d ∨ e.date = endOfDay d → e ∉ l.filter (inDay d))
    ∧ (e.date / msPerDay ≠ d → summarizeDay (e :: l) d = summarizeDay l d) := by
  refine ⟨?_, ?_, ?_⟩
  · simp [List.mem_filter, inDay_iff]
  · rintro (h | h) hmem <;>
      · rcases List.mem_filter.mp hmem with ⟨_, hin⟩
        rcases (inDay_iff d e).mp hin with ⟨h1, h2⟩
        omega
  · intro hne
    have hf : inDay d e = false := inDay_of_other_day hne
    simp only [summarizeDay]
    rw [List.filter_cons_of_neg (by simp [hf])]

/-- Witness for C2: the entry timestamped exactly at the start of day 1 is
filtered out of day 1, and an entry on day 5 leaves the summary of day 0
untouched. -/
theorem c2_day_filter_witness :
    entryAtStart ∉ [entryAtStart].filter (inDay 1)
    ∧ summarizeDay (entryOtherDay :: [entryA]) 0 = summarizeDay [entryA] 0 :=
  ⟨(c2_day_filter [entryAtStart] 1 entryAtStart).2.1 (Or.inl (by decide)),
   (c2_day_filter [entryA] 0 entryOtherDay).2.2 (by decide)⟩

/-- C7: summarising the empty entry list yields all-zero overall totals and a
`byMeal` map holding exactly the four meal keys, each with all-zero totals;
and for every input the `byMeal` map holds exactly the four meal keys. -/
theorem c7_empty_summary (d : ℕ) (l : List Entry) :
    (summarizeDay [] d).totals = zeroT
    ∧ (summarizeDay [] d).byMeal =
        [("Breakfast", zeroT), ("Lunch", zeroT), ("Snack", zeroT), ("Dinner", zeroT)]
    ∧ (summarizeDay l d).byMeal.map Prod.fst = MEALS := by
  refine ⟨rfl, rfl, ?_⟩
  simp only [summarizeDay]
  exact byMeal_keys _

theorem getG_byMeal_not_meal {m : String} (h : m ∉ MEALS) (l : List Entry) :
    getG (byMealOf l) m = zeroT := by
  rw [byMealOf_eval]
  simp only [MEALS, List.mem_cons, List.mem_singleton, List.not_mem_nil, or_false,
    not_or] at h
  rcases h with ⟨h1, h2, h3, h4⟩
  simp [getG, List.find?, Ne.symm h1, Ne.symm h2, Ne.symm h3, Ne.symm h4]

theorem mealKey_ne_of_not_meal {m : String} (h : m ∉ MEALS) (e : Entry) :
    mealKey e ≠ m := by
  intro hk
  apply h
  rw [← hk]
  rcases mealKey_mem e with hh | hh | hh | hh <;> rw [hh] <;> simp [MEALS]

/-- C4: a filtered entry is grouped under its own `meal` key when that key is
one of the four meal names, and under `"Snack"` when the `meal` field is
missing or any other string; adding an entry to the input changes exactly the
group of its key, by exactly its own contribution. -/
theorem c4_meal_grouping (l : List Entry) (e : Entry) (m : String) :
    (∀ m0, e.meal = some m0 → m0 ∈ MEALS → mealKey e = m0)
    ∧ ((e.meal = none ∨ ∃ m0, e.meal = some m0 ∧ m0 ∉ MEALS) → mealKey e = "Snack")
    ∧ (getG (byMealOf (e :: l)) m =
        if mealKey e = m then addT (entryT e) (getG (byMealOf l) m)
        else getG (byMealOf l) m) := by
  refine ⟨?_, ?_, ?_⟩
  · intro m0 hm hmem
    simp [mealKey, hm, hmem]
  · rintro (h | ⟨m0, hm, hnot⟩)
    · simp [mealKey, h]
    · simp [mealKey, hm, hnot]
  · by_cases hB : m = "Breakfast"
    · subst hB
      rw [getG_byMeal_breakfast, getG_byMeal_breakfast, groupT_cons]
    · by_cases hL : m = "Lunch"
      · subst hL
        rw [getG_byMeal_lunch, getG_byMeal_lunch, groupT_cons]
      · by_cases hS : m = "Snack"
        · subst hS
          rw [getG_byMeal_snack, getG_byMeal_snack, groupT_cons]
        · by_cases hD : m = "Dinner"
          · subst hD
            rw [getG_byMeal_dinner, getG_byMeal_dinner, groupT_cons]
          · have hnm : m ∉ MEALS := by simp [MEALS, hB, hL, hS, hD]
            rw [getG_byMeal_not_meal hnm, getG_byMeal_not_meal hnm,
              if_neg (mealKey_ne_of_not_meal hnm e)]

/-- Witness for C4: the sample lunch entry is grouped under `"Lunch"`; the
entry without a `meal` field and the one with the invalid meal string
`"Meal 4"` are grouped under `"Snack"`; and consing the lunch entry adds its
contribution to the `"Lunch"` group. -/
theorem c4_meal_grouping_witness :
    mealKey entryB = "Lunch"
    ∧ mealKey entryNoMeal = "Snack"
    ∧ mealKey entryBadMeal = "Snack"
    ∧ getG (byMealOf [entryB]) "Lunch" = addT (entryT entryB) (getG (byMealOf []) "Lunch") :=
  ⟨(c4_meal_grouping [] entryB "Lunch").1 "Lunch" rfl (by decide),
   (c4_meal_grouping [] entryNoMeal "Snack").2.1 (Or.inl rfl),
   (c4_meal_grouping [] entryBadMeal "Snack").2.1 (Or.inr ⟨"Meal 4", rfl, by decide⟩),
   by
    have h := (c4_meal_grouping [] entryB "Lunch").2.2
    rwa [if_pos (by decide)] at h⟩

/-- C5: the day summary does not depend on the order of the stored entries —
for every permutation of the input list, `summarizeDay` returns the same
totals and the same four by-meal groups. -/
theorem c5_order_independent (E F : List Entry) (d : ℕ) (h : E.Perm F) :
    summarizeDay E d = summarizeDay F d := by
  have hf : (E.filter (inDay d)).Perm (F.filter (inDay d)) := h.filter _
  simp only [summarizeDay]
  rw [totalsOf_perm hf, byMealOf_perm hf]

/-- Witness for C5: swapping the two sample entries leaves the summary of
day 0 unchanged. -/
theorem c5_order_independent_witness :
    summarizeDay [entryB, entryA] 0 = summarizeDay [entryA, entryB] 0 :=
  c5_order_independent [entryB, entryA] [entryA, entryB] 0
    (List.Perm.swap entryA entryB [])

theorem entryT_sanitize (e : Entry) : entryT (sanitizeE e) = entryT e := rfl

theorem totalsOf_map_sanitize (l : List Entry) :
    totalsOf (l.map sanitizeE) = totalsOf l := by
  induction l with
  | nil => rfl
  | cons e l ih => rw [List.map_cons, totalsOf_cons, totalsOf_cons, ih, entryT_sanitize]

theorem groupT_map_sanitize (m : String) (l : List Entry) :
    groupT m (l.map sanitizeE) = groupT m l := by
  unfold groupT
  rw [List.filter_map,
    show ((fun e => decide (mealKey e = m)) ∘ sanitizeE) = fun e => decide (mealKey e = m)
      from funext fun e => rfl,
    totalsOf_map_sanitize]

theorem byMealOf_map_sanitize (l : List Entry) :
    byMealOf (l.map sanitizeE) = byMealOf l := by
  rw [byMealOf_eval, byMealOf_eval, groupT_map_sanitize, groupT_map_sanitize,
    groupT_map_sanitize, groupT_map_sanitize]

/-- C6: `summarizeDay` is a total function (it is defined for every entry
list, including entries whose numeric fields are missing or non-numeric,
modelled as `none`), and every missing or non-numeric
calories/protein/carbs/fat/fiber field contributes exactly `0` to every sum:
the summary of any list equals the summary of the list with every such field
replaced by a present `0`. -/
theorem c6_missing_fields_contribute_zero (l : List Entry) (d : ℕ) :
    summarizeDay (l.map sanitizeE) d = summarizeDay l d := by
  simp only [summarizeDay]
  rw [List.filter_map,
    show (inDay d ∘ sanitizeE) = inDay d from funext fun e => rfl,
    totalsOf_map_sanitize, byMealOf_map_sanitize]

/-- C8: saving a non-empty batch of new entries persists exactly the new
entries followed by the previously persisted list, so every previously
persisted entry is still present, unchanged, and in its previous relative
order. -/
theorem c8_save_prepends (N P : List Entry) (h : N ≠ []) :
    saveEntries N P = N ++ P ∧ P.Sublist (saveEntries N P) := by
  have hne : N.isEmpty = false := by
    cases N with
    | nil => exact absurd rfl h
    | cons a N => rfl
  constructor
  · unfold saveEntries
    rw [hne]
    rfl
  · unfold saveEntries
    rw [hne]
    exact List.sublist_append_right N P

/-- Witness for C8: saving the one-entry batch `[entryA]` over the persisted
list `[entryB]` stores `[entryA, entryB]`, keeping `[entryB]` as a sublist. -/
theorem c8_save_prepends_witness :
    saveEntries [entryA] [entryB] = [entryA] ++ [entryB]
    ∧ List.Sublist [entryB] (saveEntries [entryA] [entryB]) :=
  c8_save_prepends [entryA] [entryB] (by simp)

/-- C9: deleting by id removes exactly the entries whose id equals the given
id, keeps every other entry in the same relative order, and leaves the list
unchanged when no entry has that id. -/
theorem c9_delete_by_id (entries : List Entry) (id : String) :
    (∀ e, e ∈ deleteEntry entries id ↔ e ∈ entries ∧ e.id ≠ id)
    ∧ (deleteEntry entries id).Sublist entries
    ∧ ((∀ e ∈ entries, e.id ≠ id) → deleteEntry entries id = entries) := by
  refine ⟨?_, ?_, ?_⟩
  · intro e
    simp [deleteEntry, List.mem_filter]
  · exact List.filter_sublist _
  · intro h
    unfold deleteEntry
    rw [List.filter_eq_self]
    intro a ha
    simpa using h a ha

/-- Witness for C9: deleting the id `"zzz"`, which no stored entry has,
leaves the sample list unchanged; and an entry is a member of the result of
deleting `"a1"` exactly when it was stored with a different id. -/
theorem c9_delete_by_id_witness :
    deleteEntry [entryA, entryB] "zzz" = [entryA, entryB]
    ∧ (entryB ∈ deleteEntry [entryA, entryB] "a1" ↔
        entryB ∈ [entryA, entryB] ∧ entryB.id ≠ "a1") :=
  ⟨(c9_delete_by_id [entryA, entryB] "zzz").2.2 (by decide),
   (c9_delete_by_id [entryA, entryB] "a1").1 entryB⟩

theorem entriesToSave_data (uuid : ℕ → String) (date : ℕ) :
    ∀ (meals : List MealRow) (k : ℕ),
      (entriesToSave uuid date meals k).map entryData =
        (meals.filter hasAnyValue).map rowData := by
  intro meals
  induction meals with
  | nil => intro k; rfl
  | cons m rest ih =>
    intro k
    by_cases h : hasAnyValue m
    · rw [entriesToSave, if_pos h, List.filter_cons_of_pos h, List.map_cons, List.map_cons,
        ih]
      rfl
    · rw [entriesToSave, if_neg h, List.filter_cons_of_neg h, ih]

/-- C10: on submission, an entry (with the row's name and coerced numeric
values) is created and persisted for a meal row exactly when at least one of
the row's six numeric fields coerces to a strictly positive number; the
persisted list is always the created entries prepended to the prior list, so
a submission in which no row qualifies leaves the persisted list unchanged. -/
theorem c10_row_qualification (uuid : ℕ → String) (date : ℕ) (meals : List MealRow)
    (existing : List Entry) :
    ((entriesToSave uuid date meals 0).map entryData =
        (meals.filter hasAnyValue).map rowData)
    ∧ onSubmit uuid date meals existing = entriesToSave uuid date meals 0 ++ existing
    ∧ ((∀ m ∈ meals, hasAnyValue m = false) → onSubmit uuid date meals existing = existing) := by
  refine ⟨entriesToSave_data uuid date meals 0, ?_, ?_⟩
  · unfold onSubmit saveEntries
    by_cases h : (entriesToSave uuid date meals 0).isEmpty
    · rw [if_pos h, List.isEmpty_iff.mp h, List.nil_append]
    · rw [if_neg h]
  · intro h
    have hnil : entriesToSave uuid date meals 0 = [] := by
      have hmap := entriesToSave_data uuid date meals 0
      have hfil : meals.filter hasAnyValue = [] := by
        rw [List.filter_eq_nil_iff]
        intro a ha
        simp [h a ha]
      rw [hfil, List.map_nil, List.map_eq_nil_iff] at hmap
      exact hmap
    unfold onSubmit
    rw [hnil]
    rfl

/-- Witness for C10: a submission whose rows have only missing fields or
fields that coerce to `0` stores nothing — the persisted list is unchanged. -/
theorem c10_row_qualification_witness :
    onSubmit uuidOf 0 [rowEmpty, rowZero] [entryA] = [entryA] :=
  (c10_row_qualification uuidOf 0 [rowEmpty, rowZero] [entryA]).2.2 (by decide)

theorem clamp_scale (x : ℚ) : min 100 (max 0 (x * 100)) = 100 * min 1 (max 0 x) := by
  rcases le_total x 0 with hx | hx
  · have h1 : x * 100 ≤ 0 := by nlinarith
    rw [max_eq_left h1, max_eq_left hx]
    norm_num
  · rcases le_total 1 x with h1 | h1
    · have h2 : (100 : ℚ) ≤ x * 100 := by nlinarith
      have h3 : (0 : ℚ) ≤ x * 100 := by nlinarith
      rw [max_eq_right h3, min_eq_left h2, max_eq_right hx, min_eq_left h1]
      norm_num
    · have h3 : (0 : ℚ) ≤ x * 100 := by nlinarith
      have h4 : x * 100 ≤ 100 := by nlinarith
      rw [max_eq_right h3, min_eq_right h4, max_eq_right hx, min_eq_right h1]
      ring

/-- Counterexample to C3 as stated: at `value = 10`, `goal = 0` the source
computes `(10 / 0) * 100 = Infinity`, and `Math.min(100, Math.max(0,
Infinity))` clamps it to `100` — a full bar — whereas the claim demands the
ratio `0`. -/
theorem c3_counterexample :
    progressPct 10 0 = JsNum.num 100 ∧ progressRatioSpec 10 0 = 0
    ∧ progressPct 10 0 ≠ JsNum.num (100 * progressRatioSpec 10 0) := by
  have h1 : progressPct 10 0 = JsNum.num 100 := by decide
  have h2 : progressRatioSpec 10 0 = 0 := by decide
  refine ⟨h1, h2, ?_⟩
  rw [h1, h2, mul_zero]
  intro hc
  have hq : (100 : ℚ) = 0 := JsNum.num.inj hc
  norm_num at hq

/-- C3 (amended): for every `goal ≠ 0` the displayed progress equals
`value / goal` clamped to `[0, 1]` (scaled to percent), and in particular it
agrees with the spec's `progressRatio` whenever `goal > 0`; but when
`goal = 0` the missing guard shows: a positive `value` yields a full bar
(`Infinity` clamped to the maximum, not `0`), a negative `value` yields `0`,
and `value = 0` yields `NaN`. -/
theorem c3_progress_clamped (v g : ℚ) :
    (g ≠ 0 → progressPct v g = JsNum.num (100 * min 1 (max 0 (v / g))))
    ∧ (0 < g → progressPct v g = JsNum.num (100 * progressRatioSpec v g))
    ∧ (g = 0 → 0 < v → progressPct v g = JsNum.num 100)
    ∧ (g = 0 → v < 0 → progressPct v g = JsNum.num 0)
    ∧ (g = 0 → v = 0 → progressPct v g = JsNum.nan) := by
  have hmain : g ≠ 0 → progressPct v g = JsNum.num (100 * min 1 (max 0 (v / g))) := by
    intro hg
    simp only [progressPct, jsDivQ, if_neg hg, jsMul100, jsMax0, jsMin100]
    exact congrArg JsNum.num (clamp_scale (v / g))
  refine ⟨hmain, ?_, ?_, ?_, ?_⟩
  · intro hg
    rw [hmain (ne_of_gt hg), progressRatioSpec, if_neg (not_le.mpr hg)]
  · intro hg hv
    subst hg
    simp [progressPct, jsDivQ, hv, jsMul100, jsMax0, jsMin100]
  · intro hg hv
    subst hg
    have hnv : ¬ (0 < v) := by linarith
    simp only [progressPct, jsDivQ, reduceIte, hnv, hv, jsMul100, jsMax0, jsMin100]
    norm_num
  · intro hg hv
    subst hg
    subst hv
    simp [progressPct, jsDivQ, jsMul100, jsMax0, jsMin100]

/-- Witness for the amended C3: the spec's worked examples both hold
(`50/100` shows half a bar, `150/100` a clamped full bar), and the zero-goal
input shows a full bar. -/
theorem c3_progress_clamped_witness :
    progressPct 50 100 = JsNum.num 50
    ∧ progressPct 150 100 = JsNum.num 100
    ∧ progressPct 10 0 = JsNum.num 100 := by
  refine ⟨?_, ?_, ?_⟩
  · have h := (c3_progress_clamped 50 100).1 (by norm_num)
    rw [h]
    norm_num [max_def, min_def]
  · have h := (c3_progress_clamped 150 100).1 (by norm_num)
    rw [h]
    norm_num [max_def, min_def]
  · exact (c3_progress_clamped 10 0).2.2.1 rfl (by norm_num)

end CalorieJournal
